/-
Verification of the EDR publisher's query core against its specification.

The repository serves OGC EDR position/area queries over a chunked Zarr
store.  The route handlers (`edr_publisher/api/edr_routes.py`), dataset
discovery (`edr_publisher/config.py`) and the NetCDF→Zarr pipeline
(`scripts/data_pipeline/convert_to_zarr.py`) are embedded from their
Python sources.  The data accessor (`edr_publisher/data/zarr_accessor.py`)
is not present in the available sources; the definitions that stand in
for it are modelled from the specification and are marked as such in
their doc comments.

Numbers are modelled as rationals (ℚ): the axes, coordinates and field
values of the store are finite decimal grids, and the properties at
stake (nearest-index selection, range clipping, ordering, null mapping)
are order/arithmetic properties independent of float rounding.
-/
import Mathlib

namespace EdrSpec

/-! ## Scalars and null mapping (Result Assembler)

Modelled from the spec: the accessor that decodes stored scalars is in
`edr_publisher/data/zarr_accessor.py`, which is absent from the sources.
§4.4: "Field values that equal the store's declared fill/sentinel value,
or are non-finite, are mapped to a null marker in the record rather than
propagated as numeric values."  The default fill value for float fields
is NaN (`scripts/convert_to_zarr.py`, `optimize_zarr_encoding`). -/

/-- A raw stored scalar: either a finite value or one of the IEEE
non-finite markers (NaN, ±infinity), represented symbolically. -/
inductive Scalar where
  | val (q : ℚ)
  | nan
  | posInf
  | negInf
deriving DecidableEq

/-- Whether a stored scalar is a finite number. -/
def Scalar.isFinite : Scalar → Bool
  | .val _ => true
  | _ => false

/-- Modelled from the spec (§4.4): decode one stored scalar.  A value
equal to the declared fill/sentinel, or non-finite, becomes `none`
(the explicit null marker); every other value is passed through. -/
def decodeScalar (fill : Scalar) (s : Scalar) : Option ℚ :=
  if s = fill then none
  else
    match s with
    | .val q => some q
    | _ => none

/-- Modelled from the spec (§4.5): assemble the field map of one record.
One entry per declared field name, in declared order; the value is the
decoded scalar (`none` marks null).  Keys are never omitted. -/
def assembleFields (fieldNames : List String) (fill : Scalar)
    (read : String → Scalar) : List (String × Option ℚ) :=
  fieldNames.map (fun g => (g, decodeScalar fill (read g)))

/-! ## Route handlers (`edr_publisher/api/edr_routes.py`)

The handlers are embedded generically over the data accessor: the
accessor's parse functions are represented by their outcomes
(`Except`), and its query functions by opaque-to-the-handler functions.
The `queryRan` flag records whether `query_position` / `query_area`
was invoked, which the source does exactly once, after all
validations. -/

/-- Outcome of a route handler: a successful body or an HTTP error with
status and detail, mirroring `JSONResponse` / `HTTPException`. -/
inductive HandlerResp (R : Type) where
  | ok (body : R)
  | err (status : Nat) (detail : String)
deriving DecidableEq

/-- A handler outcome together with whether the underlying data query
was executed. -/
structure HandlerOut (R : Type) where
  resp : HandlerResp R
  queryRan : Bool
deriving DecidableEq

/-- The interface of `ZarrDataAccessor` as used by the route handlers:
collection id and parameter names from `get_collection_metadata()`,
parse functions (by their outcome) and query functions. -/
structure Accessor (CP CA D R : Type) where
  collectionId : String
  paramNames : List String
  parsePositionCoords : String → Except String CP
  parseAreaCoords : String → Except String CA
  parseDatetime : Option String → Except String D
  queryPosition : CP → D → Option String → R
  queryArea : CA → D → Option String → R

/-- Python's `str.upper()` for the ASCII format names compared by the
handlers, as a character-wise map. -/
def strUpper (s : String) : String := ⟨s.data.map Char.toUpper⟩

/-- The parameter-name validation guard of both handlers
(`edr_routes.py` lines 199 and 257):
`if parameter_name and parameter_name not in metadata["parameter_names"]`.
Python truthiness makes the guard skip `None` and the empty string. -/
def paramRejected (parameterName : Option String) (paramNames : List String) : Bool :=
  match parameterName with
  | none => false
  | some p => p ≠ "" && ¬ p ∈ paramNames

/-- `position_query` handler (`edr_routes.py` lines 169-224): validate
the collection id (404), parse coordinates (400 on failure), parse the
datetime (400 on failure), validate the parameter name (400), run the
data query, then check the output format (400 if not GeoJSON). -/
def position_query {CP CA D R : Type} (acc : Accessor CP CA D R)
    (collection_id coords : String) (datetime : Option String)
    (parameter_name : Option String) (f : String) : HandlerOut R :=
  if collection_id ≠ acc.collectionId then
    ⟨.err 404 ("Collection " ++ collection_id ++ " not found"), false⟩
  else
    match acc.parsePositionCoords coords with
    | .error e => ⟨.err 400 ("Invalid coordinates: " ++ e), false⟩
    | .ok c =>
      match acc.parseDatetime datetime with
      | .error e => ⟨.err 400 ("Invalid datetime: " ++ e), false⟩
      | .ok dt =>
        if paramRejected parameter_name acc.paramNames then
          ⟨.err 400 ("Parameter " ++ parameter_name.getD "" ++ " not available"), false⟩
        else
          let result := acc.queryPosition c dt parameter_name
          if strUpper f = "GEOJSON" then ⟨.ok result, true⟩
          else ⟨.err 400 ("Unsupported format: " ++ f), true⟩

/-- `area_query` handler (`edr_routes.py` lines 227-281); identical
control flow to `position_query` with the area parse and query. -/
def area_query {CP CA D R : Type} (acc : Accessor CP CA D R)
    (collection_id coords : String) (datetime : Option String)
    (parameter_name : Option String) (f : String) : HandlerOut R :=
  if collection_id ≠ acc.collectionId then
    ⟨.err 404 ("Collection " ++ collection_id ++ " not found"), false⟩
  else
    match acc.parseAreaCoords coords with
    | .error e => ⟨.err 400 ("Invalid coordinates: " ++ e), false⟩
    | .ok c =>
      match acc.parseDatetime datetime with
      | .error e => ⟨.err 400 ("Invalid datetime: " ++ e), false⟩
      | .ok dt =>
        if paramRejected parameter_name acc.paramNames then
          ⟨.err 400 ("Parameter " ++ parameter_name.getD "" ++ " not available"), false⟩
        else
          let result := acc.queryArea c dt parameter_name
          if strUpper f = "GEOJSON" then ⟨.ok result, true⟩
          else ⟨.err 400 ("Unsupported format: " ++ f), true⟩

/-- The default advertised output formats of a `Collection`
(`edr_publisher/models/edr_models.py` line 64):
`output_formats: List[str] = Field(default=["GeoJSON", "CoverageJSON"])`. -/
def collectionOutputFormatsDefault : List String := ["GeoJSON", "CoverageJSON"]

/-- A concrete accessor instance used to evaluate the handlers on
concrete requests (parsers always succeed, queries return `()`). -/
def demoAccessor : Accessor Unit Unit Unit Unit where
  collectionId := "wave_data"
  paramNames := ["htsgwsfc", "perpwsfc"]
  parsePositionCoords := fun _ => .ok ()
  parseAreaCoords := fun _ => .ok ()
  parseDatetime := fun _ => .ok ()
  queryPosition := fun _ _ _ => ()
  queryArea := fun _ _ _ => ()

/-- A concrete accessor whose position-coordinate and datetime parsing
fail, to evaluate the handlers' parse-failure paths. -/
def failingAccessor : Accessor Unit Unit Unit Unit where
  collectionId := "wave_data"
  paramNames := ["htsgwsfc", "perpwsfc"]
  parsePositionCoords := fun _ => .error "bad point"
  parseAreaCoords := fun _ => .ok ()
  parseDatetime := fun _ => .error "bad datetime"
  queryPosition := fun _ _ _ => ()
  queryArea := fun _ _ _ => ()

/-! ## Dataset discovery (`edr_publisher/config.py`)

`EDRConfig.get_available_datasets` globs `*.zarr` entries of the data
directory, keeps those whose `<stem>_edr_metadata.json` sidecar exists
and loads as JSON, and sorts them by modification time, newest first.
`EDRConfig.get_active_dataset` then applies the `active_collection`
configuration.  The filesystem state is represented by a list of
directory entries. -/

/-- One `*.zarr` entry of the data directory as `get_available_datasets`
observes it: its stem, whether the `<stem>_edr_metadata.json` sidecar
exists, whether that sidecar loads as JSON, the `id` field of the loaded
metadata when present, and the store's modification time. -/
structure DirEntry where
  stem : String
  hasSidecar : Bool
  sidecarLoads : Bool
  metaId : Option String
  mtime : Int
deriving DecidableEq

/-- A discovered dataset as returned by `get_available_datasets`:
`id = metadata.get("id", zarr_path.stem)`, plus the modification time. -/
structure DatasetInfo where
  id : String
  stem : String
  mtime : Int
deriving DecidableEq

/-- Insert into a list already sorted by `mtime` descending, keeping the
element after entries with greater-or-equal `mtime` (the stable order of
Python's `list.sort(key=..., reverse=True)`). -/
def insertByMtimeDesc (d : DatasetInfo) : List DatasetInfo → List DatasetInfo
  | [] => [d]
  | x :: xs => if x.mtime > d.mtime then x :: insertByMtimeDesc d xs else d :: x :: xs

/-- Sort datasets by modification time, newest first
(`datasets.sort(key=lambda x: x["modified"], reverse=True)`). -/
def sortByMtimeDesc : List DatasetInfo → List DatasetInfo
  | [] => []
  | x :: xs => insertByMtimeDesc x (sortByMtimeDesc xs)

/-- `EDRConfig.get_available_datasets` (`config.py` lines 41-75): keep
every `*.zarr` entry whose metadata sidecar exists and loads, build its
dataset record, and sort newest first.  An entry whose sidecar is
missing, or whose sidecar fails to load (the `except` branch at line
65), is skipped. -/
def get_available_datasets (dir : List DirEntry) : List DatasetInfo :=
  sortByMtimeDesc (dir.filterMap (fun e =>
    if e.hasSidecar && e.sidecarLoads then
      some ⟨e.metaId.getD e.stem, e.stem, e.mtime⟩
    else none))

/-- `EDRConfig.get_active_dataset` (`config.py` lines 77-97): `None`
when discovery finds nothing; else, when `active_collection` is truthy
(non-`None`, non-empty — Python `if collection_id`) and differs from
`"latest"`, the first discovered dataset with that id if one exists;
in every other case the newest dataset. -/
def get_active_dataset (activeCollection : Option String) (dir : List DirEntry) :
    Option DatasetInfo :=
  let datasets := get_available_datasets dir
  if datasets.isEmpty then none
  else
    let viaConfig : Option DatasetInfo :=
      match activeCollection with
      | some c => if c ≠ "" && c ≠ "latest" then datasets.find? (fun d => d.id = c) else none
      | none => none
    match viaConfig with
    | some d => some d
    | none => datasets.head?

/-! ## NetCDF→Zarr pipeline
(`scripts/data_pipeline/convert_to_zarr.py`, `WaveDataConverter`)

`optimize_for_zarr` re-chunks the dataset (which leaves coordinate
values untouched), sorts by the time coordinate when it is not already
monotonic non-decreasing, and, when the longitude axis reaches past
180, rewrites longitudes by `(lon + 180) % 360 - 180` and sorts by
longitude.  Only the coordinate axes are modelled: `sortby` reorders
the data arrays consistently with the coordinate and has no further
effect on the axes. -/

/-- The coordinate axes of a wave dataset (`time`, `lat`, `lon`). -/
structure WaveDataset where
  time : List ℚ
  lat : List ℚ
  lon : List ℚ
deriving DecidableEq

/-- Pandas `is_monotonic_increasing`: every consecutive pair is
non-decreasing. -/
def isMonotonicIncreasing : List ℚ → Bool
  | [] => true
  | [_] => true
  | a :: b :: rest => a ≤ b && isMonotonicIncreasing (b :: rest)

/-- Insert into an ascending-sorted list (after strictly smaller
elements). -/
def insertAsc (x : ℚ) : List ℚ → List ℚ
  | [] => [x]
  | y :: ys => if y < x then y :: insertAsc x ys else x :: y :: ys

/-- Ascending sort of an axis, as `xarray.Dataset.sortby` orders a
coordinate. -/
def sortAsc : List ℚ → List ℚ
  | [] => []
  | x :: xs => insertAsc x (sortAsc xs)

/-- Python's float modulo: `a % b = a - b * floor(a / b)`, which for
`b > 0` lands in `[0, b)`. -/
def pyMod (a b : ℚ) : ℚ := a - b * ⌊a / b⌋

/-- First block of `optimize_for_zarr` (lines 234-237): sort by the
time coordinate unless it is already monotonic non-decreasing. -/
def sortTimeStep (ds : WaveDataset) : WaveDataset :=
  if isMonotonicIncreasing ds.time then ds else { ds with time := sortAsc ds.time }

/-- Second block of `optimize_for_zarr` (lines 239-244): when
`lon.max() > 180`, replace longitudes by `(lon + 180) % 360 - 180` and
sort by longitude. -/
def wrapLonStep (ds : WaveDataset) : WaveDataset :=
  match ds.lon.max? with
  | some m =>
    if 180 < m then
      { ds with lon := sortAsc (ds.lon.map (fun x => pyMod (x + 180) 360 - 180)) }
    else ds
  | none => ds

/-- `WaveDataConverter.optimize_for_zarr` (lines 218-246), restricted to
its effect on the coordinate axes: chunking changes no coordinate; then
the time-sorting block runs, then the longitude-wrapping block. -/
def optimize_for_zarr (ds : WaveDataset) : WaveDataset :=
  wrapLonStep (sortTimeStep ds)

/-! ## Dataset Catalog: axis resolution

Modelled from the spec: the Catalog lives in
`edr_publisher/data/zarr_accessor.py`, absent from the sources.
§4.3: "Nearest-point resolution uses binary search on the monotonic
axis arrays (O(log n) per axis) with tie-break toward the lower index
on exact midpoints", and region resolution clips to the covered
sub-range.  The insertion point that binary search computes is the
least index whose axis value is ≥ the target (`searchSorted` computes
the same index; the logarithmic search strategy is not observable in
the result). -/

/-- Modelled from the spec (§4.3): the least index whose axis value is
`≥ v` (the binary-search insertion point); `axis.length` when every
value is smaller. -/
def searchSorted (axis : List ℚ) (v : ℚ) : Nat :=
  axis.findIdx (fun x => decide (v ≤ x))

/-- Modelled from the spec (§4.3): nearest index on an ascending axis.
Compare the two neighbours of the insertion point; an exact midpoint
ties toward the lower index. -/
def nearestIdxAsc (axis : List ℚ) (v : ℚ) : Nat :=
  let k := searchSorted axis v
  if k = 0 then 0
  else if k = axis.length then axis.length - 1
  else if v - axis.getD (k - 1) 0 ≤ axis.getD k 0 - v then k - 1 else k

/-- Modelled from the spec (§3, §4.3): nearest index on a strictly
monotonic axis of either orientation.  A descending axis (latitude may
be stored north-to-south) is handled by negating values and target,
which preserves distances and index order. -/
def nearestIdx (axis : List ℚ) (v : ℚ) : Nat :=
  if 2 ≤ axis.length && axis.getD 1 0 < axis.getD 0 0 then
    nearestIdxAsc (axis.map (fun x => -x)) (-v)
  else
    nearestIdxAsc axis v

/-- Modelled from the spec (§4.3): the covering index range of an
ascending axis for the value interval `[lo, hi]`, clipped to the axis:
the half-open index range from the first value `≥ lo` to the first
value `> hi`.  A region entirely outside the axis yields an empty
range. -/
def coveringRange (axis : List ℚ) (lo hi : ℚ) : Nat × Nat :=
  (axis.findIdx (fun x => decide (lo ≤ x)), axis.findIdx (fun x => decide (hi < x)))

/-- Modelled from the spec (§4.3): whether `v` lies within the closed
range spanned by the axis endpoints (either orientation). -/
def inAxisRange (axis : List ℚ) (v : ℚ) : Bool :=
  !axis.isEmpty &&
    ((axis.getD 0 0 ≤ v && v ≤ axis.getD (axis.length - 1) 0) ||
     (axis.getD (axis.length - 1) 0 ≤ v && v ≤ axis.getD 0 0))

/-! ## Query Engine

Modelled from the spec: `query_position` / `query_area` live in the
absent `edr_publisher/data/zarr_accessor.py`.  §4.4 describes the two
modes; §4.3 gives `OutOfBounds` for a point outside the axis range and
clipping for a partially-covered region. -/

/-- A temporal selection (§3): a single instant (nearest-match), an
inclusive interval, or no constraint. -/
inductive TemporalSel where
  | instant (t : ℚ)
  | interval (t0 t1 : ℚ)
  | all
deriving DecidableEq

/-- Modelled from the spec (§4.4): the time indices selected by a
temporal selection — the nearest index for an instant, the covering
inclusive index range for an interval, the full axis for `all`. -/
def timeIndices (timeAxis : List ℚ) : TemporalSel → List Nat
  | .instant t => [nearestIdx timeAxis t]
  | .interval a b =>
    let r := coveringRange timeAxis a b
    List.range' r.1 (r.2 - r.1)
  | .all => List.range timeAxis.length

/-- One output sample: a grid cell, a time value, and the decoded
field values (`none` marks null). -/
structure SampleRecord where
  lat : ℚ
  lon : ℚ
  time : ℚ
  fields : List (String × Option ℚ)
deriving DecidableEq

/-- Modelled from the spec (§4.4 Position): resolve the point to the
nearest grid cell (`OutOfBounds` when it lies outside the axis range,
§4.3), resolve the temporal selection, and emit one record per selected
time index with the fields of `field_filter` (or all declared fields)
decoded through the fill/null mapping. -/
def query_position (latAxis lonAxis timeAxis : List ℚ) (fieldNames : List String)
    (fill : Scalar) (store : Nat → Nat → Nat → String → Scalar)
    (lon lat : ℚ) (sel : TemporalSel) (fieldFilter : Option String) :
    Except String (List SampleRecord) :=
  if inAxisRange latAxis lat && inAxisRange lonAxis lon then
    let i := nearestIdx latAxis lat
    let j := nearestIdx lonAxis lon
    let names := match fieldFilter with
      | some g => [g]
      | none => fieldNames
    .ok ((timeIndices timeAxis sel).map (fun ti =>
      { lat := latAxis.getD i 0, lon := lonAxis.getD j 0, time := timeAxis.getD ti 0,
        fields := assembleFields names fill (store ti i j) }))
  else
    .error "OutOfBounds"

/-- Modelled from the spec (§4.4 Area, §4.3): resolve the bbox to
covering index ranges, clipped to each axis; a bbox entirely outside
the extent clips to an empty range and yields zero records, not an
error.  Returns the grid cells of the rectangular sub-range (the
per-cell record emission then follows the Position mode per time
index). -/
def query_area_cells (latAxis lonAxis : List ℚ)
    (minLon minLat maxLon maxLat : ℚ) : Except String (List (ℚ × ℚ)) :=
  let ri := coveringRange latAxis minLat maxLat
  let rj := coveringRange lonAxis minLon maxLon
  .ok ((List.range' ri.1 (ri.2 - ri.1)).flatMap (fun i =>
    (List.range' rj.1 (rj.2 - rj.1)).map (fun j =>
      (latAxis.getD i 0, lonAxis.getD j 0))))

/-! ## Geometry Parser

Modelled from the spec: `parse_coordinates` lives in the absent
`edr_publisher/data/zarr_accessor.py`.  §4.1: accepted forms are
`POINT(lon lat)`, a bare `lon,lat` pair, `POLYGON((lon1 lat1, ...))`,
and a bare 4-tuple bbox; latitude must satisfy `|lat| ≤ 90`, polygons
need at least 3 vertices, and longitudes are normalized to the store's
convention (here `[-180, 180]`).  The textual form is modelled at the
token level (numbers, commas, parentheses, keywords): numeral lexing
is textual plumbing below the property at stake. -/

/-- One token of a coordinate string. -/
inductive GeoTok where
  | num (q : ℚ)
  | comma
  | lp
  | rp
  | kwPoint
  | kwPolygon
deriving DecidableEq

/-- Parsed geometry (§3): a point, a bbox, or a polygon ring. -/
inductive Geometry where
  | point (lon lat : ℚ)
  | bbox (minLon minLat maxLon maxLat : ℚ)
  | polygon (ring : List (ℚ × ℚ))
deriving DecidableEq

/-- Modelled from the spec (§4.1): normalize a longitude accepted in
`[-180,180]` or `[0,360)` to the store's `[-180,180]` convention. -/
def normalizeLon (q : ℚ) : ℚ := if 180 < q then q - 360 else q

/-- Modelled from the spec (§4.1): latitude validity, `|lat| ≤ 90`. -/
def validLat (q : ℚ) : Bool := -90 ≤ q && q ≤ 90

/-- Modelled from the spec (§4.1): format a vertex list as the inner
token run of `POLYGON((x1 y1, x2 y2, ...))`. -/
def ringToks : List (ℚ × ℚ) → List GeoTok
  | [] => []
  | [(x, y)] => [.num x, .num y]
  | (x, y) :: rest => .num x :: .num y :: .comma :: ringToks rest

/-- Modelled from the spec (§4.1, §8): format a geometry into its
textual (token) form, WKT for points and polygons and the bare
comma-separated 4-tuple for a bbox — the inverse direction of the
`parse(format(geometry))` round trip. -/
def formatGeometry : Geometry → List GeoTok
  | .point lon lat => [.kwPoint, .lp, .num lon, .num lat, .rp]
  | .bbox a b c d => [.num a, .comma, .num b, .comma, .num c, .comma, .num d]
  | .polygon ring => .kwPolygon :: .lp :: .lp :: (ringToks ring ++ [.rp, .rp])

/-- Modelled from the spec (§4.1): parse the vertex run of a polygon up
to the closing `))`. -/
def parseRingToks : List GeoTok → Option (List (ℚ × ℚ))
  | [.num x, .num y, .rp, .rp] => some [(x, y)]
  | .num x :: .num y :: .comma :: rest =>
    (parseRingToks rest).map (fun r => (x, y) :: r)
  | _ => none

/-- Modelled from the spec (§4.1): parse a coordinate token string into
a geometry.  Fails with `MalformedGeometry` when no accepted grammar
matches, a latitude is out of range, a polygon has fewer than 3
vertices, or a bbox has min > max after longitude normalization;
longitudes are normalized on return. -/
def parseGeometry : List GeoTok → Except String Geometry
  | [.kwPoint, .lp, .num x, .num y, .rp] =>
    if validLat y then .ok (.point (normalizeLon x) y) else .error "MalformedGeometry"
  | [.num x, .comma, .num y] =>
    if validLat y then .ok (.point (normalizeLon x) y) else .error "MalformedGeometry"
  | [.num a, .comma, .num b, .comma, .num c, .comma, .num d] =>
    if validLat b && validLat d && decide (normalizeLon a ≤ normalizeLon c) && decide (b ≤ d) then
      .ok (.bbox (normalizeLon a) b (normalizeLon c) d)
    else .error "MalformedGeometry"
  | .kwPolygon :: .lp :: .lp :: rest =>
    match parseRingToks rest with
    | some ring =>
      if 3 ≤ ring.length && ring.all (fun p => validLat p.2) then
        .ok (.polygon (ring.map (fun p => (normalizeLon p.1, p.2))))
      else .error "MalformedGeometry"
    | none => .error "MalformedGeometry"
  | _ => .error "MalformedGeometry"

/-- A geometry already in the store's convention, with the §3
invariants: latitudes in range, longitudes in `[-180,180]`, bbox
min ≤ max, polygon ring of at least 3 vertices. -/
def validGeometry : Geometry → Prop
  | .point lon lat => -180 ≤ lon ∧ lon ≤ 180 ∧ -90 ≤ lat ∧ lat ≤ 90
  | .bbox a b c d =>
    -180 ≤ a ∧ a ≤ 180 ∧ -180 ≤ c ∧ c ≤ 180 ∧
      -90 ≤ b ∧ b ≤ 90 ∧ -90 ≤ d ∧ d ≤ 90 ∧ a ≤ c ∧ b ≤ d
  | .polygon ring =>
    3 ≤ ring.length ∧
      ∀ p ∈ ring, -180 ≤ p.1 ∧ p.1 ≤ 180 ∧ -90 ≤ p.2 ∧ p.2 ≤ 90

instance (g : Geometry) : Decidable (validGeometry g) := by
  cases g <;> simp only [validGeometry] <;> infer_instance

/-! ## Helper lemmas -/

theorem getD_eq_get (l : List ℚ) {i : Nat} (h : i < l.length) (d : ℚ) :
    l.getD i d = l[i] := by
  simp [List.getD_eq_getElem?_getD, List.getElem?_eq_getElem h]

theorem mem_insertAsc {a x : ℚ} {l : List ℚ} :
    a ∈ insertAsc x l ↔ a = x ∨ a ∈ l := by
  induction l with
  | nil => simp [insertAsc]
  | cons y ys ih =>
    by_cases h : y < x
    · simp only [insertAsc, if_pos h, List.mem_cons, ih]
      tauto
    · simp only [insertAsc, if_neg h, List.mem_cons]

theorem head?_insertAsc (x : ℚ) (l : List ℚ) :
    (insertAsc x l).head? = some x ∨ (insertAsc x l).head? = l.head? := by
  cases l with
  | nil => left; rfl
  | cons y ys =>
    by_cases h : y < x
    · right; simp [insertAsc, h]
    · left; simp [insertAsc, h]

theorem chain'_le_insertAsc (x : ℚ) {l : List ℚ} (h : List.Chain' (· ≤ ·) l) :
    List.Chain' (· ≤ ·) (insertAsc x l) := by
  induction l with
  | nil => simp [insertAsc]
  | cons y ys ih =>
    rw [insertAsc]
    rcases List.chain'_cons'.mp h with ⟨hy, hys⟩
    by_cases hlt : y < x
    · rw [if_pos hlt]
      refine List.chain'_cons'.mpr ⟨?_, ih hys⟩
      intro b hb
      rcases head?_insertAsc x ys with hh | hh
      · rw [hh] at hb
        cases hb
        exact le_of_lt hlt
      · exact hy b (hh ▸ hb)
    · rw [if_neg hlt]
      exact List.chain'_cons.mpr ⟨le_of_not_lt hlt, h⟩

theorem chain'_le_sortAsc (l : List ℚ) : List.Chain' (· ≤ ·) (sortAsc l) := by
  induction l with
  | nil => simp [sortAsc]
  | cons x xs ih => exact chain'_le_insertAsc x ih

theorem mem_sortAsc {a : ℚ} {l : List ℚ} : a ∈ sortAsc l ↔ a ∈ l := by
  induction l with
  | nil => simp [sortAsc]
  | cons x xs ih => simp [sortAsc, mem_insertAsc, ih]

theorem isMonotonicIncreasing_iff {l : List ℚ} :
    isMonotonicIncreasing l = true ↔ List.Chain' (· ≤ ·) l := by
  induction l with
  | nil => simp [isMonotonicIncreasing]
  | cons a tl ih =>
    cases tl with
    | nil => simp [isMonotonicIncreasing]
    | cons b rest =>
      rw [isMonotonicIncreasing, List.chain'_cons, Bool.and_eq_true, decide_eq_true_iff, ih]

theorem pyMod_nonneg_lt (a : ℚ) : 0 ≤ pyMod a 360 ∧ pyMod a 360 < 360 := by
  have hfr : pyMod a 360 = 360 * Int.fract (a / 360) := by
    rw [pyMod, Int.fract]
    ring
  constructor
  · rw [hfr]
    have := Int.fract_nonneg (a / 360)
    nlinarith
  · rw [hfr]
    have := Int.fract_lt_one (a / 360)
    nlinarith

theorem exists_max?_gt {l : List ℚ} (h : ∃ x ∈ l, (180 : ℚ) < x) :
    ∃ m, l.max? = some m ∧ 180 < m := by
  obtain ⟨x, hx, hgt⟩ := h
  obtain ⟨m, hm⟩ := Option.isSome_iff_exists.mp (List.isSome_max?_of_mem hx)
  have hb := (List.max?_le_iff (fun _ _ _ => max_le_iff) hm).mp (le_refl m) x hx
  exact ⟨m, hm, lt_of_lt_of_le hgt hb⟩

theorem sortTimeStep_lon (ds : WaveDataset) : (sortTimeStep ds).lon = ds.lon := by
  rw [sortTimeStep]
  split <;> rfl

theorem sortTimeStep_time_chain (ds : WaveDataset) :
    List.Chain' (· ≤ ·) (sortTimeStep ds).time := by
  rw [sortTimeStep]
  by_cases h : isMonotonicIncreasing ds.time
  · rw [if_pos h]
    exact isMonotonicIncreasing_iff.mp h
  · rw [if_neg h]
    exact chain'_le_sortAsc ds.time

theorem wrapLonStep_time (ds : WaveDataset) : (wrapLonStep ds).time = ds.time := by
  rw [wrapLonStep]
  cases ds.lon.max? with
  | none => rfl
  | some m => by_cases h : (180 : ℚ) < m <;> simp [h]

theorem wrapLonStep_lon_of_gt {ds : WaveDataset} {m : ℚ}
    (hm : ds.lon.max? = some m) (h : 180 < m) :
    (wrapLonStep ds).lon = sortAsc (ds.lon.map (fun x => pyMod (x + 180) 360 - 180)) := by
  rw [wrapLonStep, hm]
  simp [h]

/-! ## Claim theorems: route handlers -/

/-- C4: when coordinate-text parsing or datetime-text parsing fails, the
position and area handlers answer a structured HTTP 400 failure and the
underlying data query is never executed — no partial result is
produced. -/
theorem parse_failure_blocks_query {CP CA D R : Type} (acc : Accessor CP CA D R)
    (coords : String) (datetime : Option String) (p : Option String) (f : String) :
    (∀ e, acc.parsePositionCoords coords = .error e →
      position_query acc acc.collectionId coords datetime p f =
        ⟨.err 400 ("Invalid coordinates: " ++ e), false⟩) ∧
    (∀ c e, acc.parsePositionCoords coords = .ok c →
      acc.parseDatetime datetime = .error e →
      position_query acc acc.collectionId coords datetime p f =
        ⟨.err 400 ("Invalid datetime: " ++ e), false⟩) ∧
    (∀ e, acc.parseAreaCoords coords = .error e →
      area_query acc acc.collectionId coords datetime p f =
        ⟨.err 400 ("Invalid coordinates: " ++ e), false⟩) ∧
    (∀ c e, acc.parseAreaCoords coords = .ok c →
      acc.parseDatetime datetime = .error e →
      area_query acc acc.collectionId coords datetime p f =
        ⟨.err 400 ("Invalid datetime: " ++ e), false⟩) := by
  refine ⟨fun e he => ?_, fun c e hc he => ?_, fun e he => ?_, fun c e hc he => ?_⟩ <;>
    simp_all [position_query, area_query]

/-- C4 witness: concrete parse failures on a concrete accessor. -/
theorem parse_failure_blocks_query_witness :
    position_query failingAccessor "wave_data" "POINT(200 100)" none none "GeoJSON" =
      ⟨.err 400 "Invalid coordinates: bad point", false⟩ ∧
    area_query failingAccessor "wave_data" "-65,40,-55,50" (some "junk") none "GeoJSON" =
      ⟨.err 400 "Invalid datetime: bad datetime", false⟩ :=
  ⟨(parse_failure_blocks_query failingAccessor "POINT(200 100)" none none "GeoJSON").1
      "bad point" rfl,
    (parse_failure_blocks_query failingAccessor "-65,40,-55,50" (some "junk") none
      "GeoJSON").2.2.2 () "bad datetime" rfl rfl⟩

/-- C3 counterexample: a request whose parameter-name is the empty
string — a value not present in the declared parameter list — is NOT
rejected: Python's truthiness check `if parameter_name and ...` skips
the validation, the data query IS executed and the handler answers
200 with data instead of a 400 FieldNotFound failure. -/
theorem empty_param_name_counterexample :
    ¬ "" ∈ demoAccessor.paramNames ∧
    (position_query demoAccessor "wave_data" "POINT(-60 45)" none (some "") "GeoJSON").queryRan
      = true ∧
    (position_query demoAccessor "wave_data" "POINT(-60 45)" none (some "") "GeoJSON").resp
      = .ok () ∧
    (area_query demoAccessor "wave_data" "-65,40,-55,50" none (some "") "GeoJSON").queryRan
      = true := by
  refine ⟨by decide, by decide, by decide, by decide⟩

/-- C3 (amended): a NON-EMPTY parameter-name naming a field not in the
declared parameter list makes both handlers fail with a structured
HTTP 400 and the underlying data query is never executed. -/
theorem unknown_param_blocks_query {CP CA D R : Type} (acc : Accessor CP CA D R)
    (coords : String) (datetime : Option String) (f : String) (p : String)
    (hp : p ≠ "") (hmem : p ∉ acc.paramNames)
    (c : CP) (ca : CA) (d : D)
    (hc : acc.parsePositionCoords coords = .ok c)
    (hca : acc.parseAreaCoords coords = .ok ca)
    (hd : acc.parseDatetime datetime = .ok d) :
    position_query acc acc.collectionId coords datetime (some p) f =
      ⟨.err 400 ("Parameter " ++ p ++ " not available"), false⟩ ∧
    area_query acc acc.collectionId coords datetime (some p) f =
      ⟨.err 400 ("Parameter " ++ p ++ " not available"), false⟩ := by
  have hrej : paramRejected (some p) acc.paramNames = true := by
    simp [paramRejected, hp, hmem]
  constructor <;> simp [position_query, area_query, hc, hca, hd, hrej]

/-- C3 witness: a concrete unknown non-empty parameter-name. -/
theorem unknown_param_blocks_query_witness :
    position_query demoAccessor "wave_data" "POINT(-60 45)" none (some "badparam") "GeoJSON" =
      ⟨.err 400 "Parameter badparam not available", false⟩ ∧
    area_query demoAccessor "wave_data" "-65,40,-55,50" none (some "badparam") "GeoJSON" =
      ⟨.err 400 "Parameter badparam not available", false⟩ :=
  unknown_param_blocks_query demoAccessor "POINT(-60 45)" none "GeoJSON" "badparam"
    (by decide) (by decide) () () () rfl rfl rfl

/-- C9: a request whose format parameter `f` has `f.upper() ≠ "GEOJSON"`
is rejected by both handlers with HTTP 400 "Unsupported format" and no
data body, although the default collection metadata advertises both
GeoJSON and CoverageJSON as output formats. -/
theorem unsupported_format_rejected {CP CA D R : Type} (acc : Accessor CP CA D R)
    (coords : String) (datetime : Option String) (p : Option String) (f : String)
    (c : CP) (ca : CA) (d : D)
    (hc : acc.parsePositionCoords coords = .ok c)
    (hca : acc.parseAreaCoords coords = .ok ca)
    (hd : acc.parseDatetime datetime = .ok d)
    (hp : paramRejected p acc.paramNames = false)
    (hf : strUpper f ≠ "GEOJSON") :
    position_query acc acc.collectionId coords datetime p f =
      ⟨.err 400 ("Unsupported format: " ++ f), true⟩ ∧
    area_query acc acc.collectionId coords datetime p f =
      ⟨.err 400 ("Unsupported format: " ++ f), true⟩ ∧
    "CoverageJSON" ∈ collectionOutputFormatsDefault ∧
    "GeoJSON" ∈ collectionOutputFormatsDefault := by
  refine ⟨?_, ?_, by simp [collectionOutputFormatsDefault], by simp [collectionOutputFormatsDefault]⟩ <;>
    simp [position_query, area_query, hc, hca, hd, hp, hf]

/-- C9 witness: `f = "CoverageJSON"` is rejected even though it is among
the advertised output formats. -/
theorem unsupported_format_rejected_witness :
    position_query demoAccessor "wave_data" "POINT(-60 45)" none none "CoverageJSON" =
      ⟨.err 400 "Unsupported format: CoverageJSON", true⟩ ∧
    area_query demoAccessor "wave_data" "-65,40,-55,50" none none "CoverageJSON" =
      ⟨.err 400 "Unsupported format: CoverageJSON", true⟩ ∧
    "CoverageJSON" ∈ collectionOutputFormatsDefault ∧
    "GeoJSON" ∈ collectionOutputFormatsDefault :=
  unsupported_format_rejected demoAccessor "POINT(-60 45)" none none "CoverageJSON"
    () () () rfl rfl rfl rfl (by decide)

/-! ## Nearest-index resolution lemmas -/

theorem chain'_lt_getD {l : List ℚ} (h : List.Chain' (· < ·) l) {i j : Nat}
    (hij : i < j) (hj : j < l.length) :
    l.getD i 0 < l.getD j 0 := by
  have hi : i < l.length := Nat.lt_trans hij hj
  rw [getD_eq_get l hi 0, getD_eq_get l hj 0]
  rw [List.chain'_iff_pairwise] at h
  exact List.pairwise_iff_getElem.mp h i j hi hj hij

theorem chain'_le_getD {l : List ℚ} (h : List.Chain' (· < ·) l) {i j : Nat}
    (hij : i ≤ j) (hj : j < l.length) :
    l.getD i 0 ≤ l.getD j 0 := by
  rcases Nat.lt_or_ge i j with hlt | hge
  · exact le_of_lt (chain'_lt_getD h hlt hj)
  · have hij' : i = j := Nat.le_antisymm hij hge
    subst hij'
    exact le_refl _

theorem nearestAux {axis : List ℚ} {v : ℚ} {k : Nat}
    (hmono : List.Chain' (· < ·) axis)
    (hkn : k < axis.length) (hk1 : 1 ≤ k)
    (hatk : v ≤ axis.getD k 0)
    (hbefore : ∀ i, i < k → i < axis.length → axis.getD i 0 < v) :
    (if v - axis.getD (k - 1) 0 ≤ axis.getD k 0 - v then k - 1 else k) < axis.length ∧
    (∀ i < axis.length,
      |axis.getD (if v - axis.getD (k - 1) 0 ≤ axis.getD k 0 - v then k - 1 else k) 0 - v|
        ≤ |axis.getD i 0 - v|) ∧
    (∀ i < axis.length,
      |axis.getD i 0 - v| =
        |axis.getD (if v - axis.getD (k - 1) 0 ≤ axis.getD k 0 - v then k - 1 else k) 0 - v| →
      (if v - axis.getD (k - 1) 0 ≤ axis.getD k 0 - v then k - 1 else k) ≤ i) := by
  have hAv : axis.getD (k - 1) 0 < v := hbefore (k - 1) (by omega) (by omega)
  by_cases hcmp : v - axis.getD (k - 1) 0 ≤ axis.getD k 0 - v
  · rw [if_pos hcmp]
    have habsA : |axis.getD (k - 1) 0 - v| = v - axis.getD (k - 1) 0 := by
      rw [abs_of_nonpos (by linarith)]
      ring
    refine ⟨by omega, ?_, ?_⟩
    · intro i hi
      rw [habsA]
      rcases Nat.lt_or_ge i k with hik | hik
      · have hle : axis.getD i 0 ≤ axis.getD (k - 1) 0 :=
          chain'_le_getD hmono (by omega) (by omega)
        have hiv : axis.getD i 0 < v := hbefore i hik hi
        rw [abs_of_nonpos (by linarith)]
        linarith
      · have hge : axis.getD k 0 ≤ axis.getD i 0 := chain'_le_getD hmono hik hi
        rw [abs_of_nonneg (by linarith)]
        linarith
    · intro i hi heq
      rw [habsA] at heq
      by_contra hcon
      push_neg at hcon
      have hlt : axis.getD i 0 < axis.getD (k - 1) 0 :=
        chain'_lt_getD hmono (by omega) (by omega)
      have hiv : axis.getD i 0 < v := hbefore i (by omega) hi
      rw [abs_of_nonpos (by linarith)] at heq
      linarith
  · rw [if_neg hcmp]
    push_neg at hcmp
    have habsB : |axis.getD k 0 - v| = axis.getD k 0 - v := abs_of_nonneg (by linarith)
    refine ⟨hkn, ?_, ?_⟩
    · intro i hi
      rw [habsB]
      rcases Nat.lt_or_ge i k with hik | hik
      · have hle : axis.getD i 0 ≤ axis.getD (k - 1) 0 :=
          chain'_le_getD hmono (by omega) (by omega)
        have hiv : axis.getD i 0 < v := hbefore i hik hi
        rw [abs_of_nonpos (by linarith)]
        linarith
      · have hge : axis.getD k 0 ≤ axis.getD i 0 := chain'_le_getD hmono hik hi
        rw [abs_of_nonneg (by linarith)]
        linarith
    · intro i hi heq
      rw [habsB] at heq
      by_contra hcon
      push_neg at hcon
      have hik : i < k := by omega
      have hle : axis.getD i 0 ≤ axis.getD (k - 1) 0 :=
        chain'_le_getD hmono (by omega) (by omega)
      have hiv : axis.getD i 0 < v := hbefore i hik hi
      rw [abs_of_nonpos (by linarith)] at heq
      linarith

theorem nearestIdxAsc_spec {axis : List ℚ} {v : ℚ}
    (hmono : List.Chain' (· < ·) axis) (hne : axis ≠ [])
    (hlo : axis.getD 0 0 ≤ v) (hhi : v ≤ axis.getD (axis.length - 1) 0) :
    nearestIdxAsc axis v < axis.length ∧
    (∀ i < axis.length,
      |axis.getD (nearestIdxAsc axis v) 0 - v| ≤ |axis.getD i 0 - v|) ∧
    (∀ i < axis.length,
      |axis.getD i 0 - v| = |axis.getD (nearestIdxAsc axis v) 0 - v| →
      nearestIdxAsc axis v ≤ i) := by
  have hlen : 0 < axis.length := List.length_pos.mpr hne
  have hmem : axis.getD (axis.length - 1) 0 ∈ axis := by
    rw [getD_eq_get axis (by omega) 0]
    exact List.getElem_mem _
  have hkn : axis.findIdx (fun x => decide (v ≤ x)) < axis.length := by
    apply List.findIdx_lt_length_of_exists
    exact ⟨axis.getD (axis.length - 1) 0, hmem, by simpa using hhi⟩
  have hatk : v ≤ axis.getD (axis.findIdx (fun x => decide (v ≤ x))) 0 := by
    rw [getD_eq_get axis hkn 0]
    have hp := @List.findIdx_getElem ℚ (fun x => decide (v ≤ x)) axis hkn
    simpa using hp
  have hbefore : ∀ i, i < axis.findIdx (fun x => decide (v ≤ x)) →
      i < axis.length → axis.getD i 0 < v := by
    intro i hik hi
    rw [getD_eq_get axis hi 0]
    have hfalse := List.not_of_lt_findIdx hik
    simp only [decide_eq_false_iff_not] at hfalse
    exact not_le.mp hfalse
  by_cases hk0 : axis.findIdx (fun x => decide (v ≤ x)) = 0
  · have hres : nearestIdxAsc axis v = 0 := by
      simp [nearestIdxAsc, searchSorted, hk0]
    have heq0 : axis.getD 0 0 = v := le_antisymm hlo (by
      have hk := hatk
      rw [hk0] at hk
      exact hk)
    rw [hres]
    refine ⟨hlen, ?_, ?_⟩
    · intro i hi
      rw [heq0]
      simp only [sub_self, abs_zero]
      exact abs_nonneg (axis.getD i 0 - v)
    · intro i _ _
      exact Nat.zero_le i
  · have hkn' : axis.findIdx (fun x => decide (v ≤ x)) ≠ axis.length := Nat.ne_of_lt hkn
    have hres : nearestIdxAsc axis v =
        (if v - axis.getD (axis.findIdx (fun x => decide (v ≤ x)) - 1) 0 ≤
            axis.getD (axis.findIdx (fun x => decide (v ≤ x))) 0 - v
         then axis.findIdx (fun x => decide (v ≤ x)) - 1
         else axis.findIdx (fun x => decide (v ≤ x))) := by
      simp [nearestIdxAsc, searchSorted, hk0, hkn']
    rw [hres]
    exact nearestAux hmono hkn (Nat.one_le_iff_ne_zero.mpr hk0) hatk hbefore

theorem getD_map_neg (l : List ℚ) (i : Nat) :
    (l.map (fun x => -x)).getD i 0 = -(l.getD i 0) := by
  rcases Nat.lt_or_ge i l.length with h | h
  · rw [getD_eq_get _ (by simpa using h) 0, getD_eq_get l h 0, List.getElem_map]
  · rw [List.getD_eq_getElem?_getD, List.getD_eq_getElem?_getD,
      List.getElem?_eq_none (by simpa using h), List.getElem?_eq_none h]
    simp

theorem chain'_lt_map_neg {l : List ℚ} (h : List.Chain' (· > ·) l) :
    List.Chain' (· < ·) (l.map (fun x => -x)) := by
  rw [List.chain'_map]
  exact h.imp (fun a b hab => neg_lt_neg hab)

/-! ## Claim theorems: nearest-index resolution -/

/-- C1: on a strictly monotonic axis (either orientation), for an
in-range target value, `nearestIdx` returns a valid index whose axis
value has minimal absolute distance to the target, and any equidistant
index is at or above the returned one (exact midpoints resolve to the
lower index). -/
theorem nearestIdx_minimizes (axis : List ℚ) (v : ℚ)
    (hmono : List.Chain' (· < ·) axis ∨ List.Chain' (· > ·) axis)
    (hin : inAxisRange axis v = true) :
    nearestIdx axis v < axis.length ∧
    (∀ i < axis.length, |axis.getD (nearestIdx axis v) 0 - v| ≤ |axis.getD i 0 - v|) ∧
    (∀ i < axis.length,
      |axis.getD i 0 - v| = |axis.getD (nearestIdx axis v) 0 - v| →
      nearestIdx axis v ≤ i) := by
  have hin' : axis ≠ [] ∧
      ((axis.getD 0 0 ≤ v ∧ v ≤ axis.getD (axis.length - 1) 0) ∨
       (axis.getD (axis.length - 1) 0 ≤ v ∧ v ≤ axis.getD 0 0)) := by
    simpa [inAxisRange, List.isEmpty_iff, Bool.and_eq_true, Bool.or_eq_true,
      decide_eq_true_eq] using hin
  obtain ⟨hne, hrange⟩ := hin'
  have hlen : 0 < axis.length := List.length_pos.mpr hne
  have hres : nearestIdx axis v =
      (if 2 ≤ axis.length ∧ axis.getD 1 0 < axis.getD 0 0 then
        nearestIdxAsc (axis.map (fun x => -x)) (-v)
      else nearestIdxAsc axis v) := by
    simp [nearestIdx, Bool.and_eq_true, decide_eq_true_eq]
  by_cases hdesc : 2 ≤ axis.length ∧ axis.getD 1 0 < axis.getD 0 0
  · -- descending axis, handled through negation
    rw [hres, if_pos hdesc]
    have hchain : List.Chain' (· > ·) axis := by
      rcases hmono with hasc | hd
      · exfalso
        have h01 : axis.getD 0 0 < axis.getD 1 0 :=
          chain'_lt_getD hasc (by omega) (by omega)
        linarith [hdesc.2]
      · exact hd
    have hchm : List.Chain' (· < ·) (axis.map (fun x => -x)) := chain'_lt_map_neg hchain
    have h0n : axis.getD (axis.length - 1) 0 ≤ axis.getD 0 0 := by
      have hm := chain'_le_getD hchm (i := 0) (j := axis.length - 1)
        (by omega) (by rw [List.length_map]; omega)
      rw [getD_map_neg, getD_map_neg] at hm
      linarith
    have hvle : v ≤ axis.getD 0 0 := by
      rcases hrange with h | h
      · linarith [h.2]
      · exact h.2
    have hgev : axis.getD (axis.length - 1) 0 ≤ v := by
      rcases hrange with h | h
      · linarith [h.1]
      · exact h.1
    have hnem : axis.map (fun x => -x) ≠ [] := by
      intro hmapnil
      apply hne
      simpa using hmapnil
    have hlom : (axis.map (fun x => -x)).getD 0 0 ≤ -v := by
      rw [getD_map_neg]
      linarith
    have hhim : -v ≤ (axis.map (fun x => -x)).getD ((axis.map (fun x => -x)).length - 1) 0 := by
      rw [List.length_map, getD_map_neg]
      linarith
    obtain ⟨hj, hmin, htie⟩ := nearestIdxAsc_spec hchm hnem hlom hhim
    rw [List.length_map] at hj
    have habs : ∀ a : ℚ, |(-a) - (-v)| = |a - v| := by
      intro a
      rw [show (-a) - (-v) = -(a - v) by ring, abs_neg]
    refine ⟨hj, ?_, ?_⟩
    · intro i hi
      have hm := hmin i (by rw [List.length_map]; exact hi)
      rw [getD_map_neg, getD_map_neg, habs, habs] at hm
      exact hm
    · intro i hi heq
      apply htie i (by rw [List.length_map]; exact hi)
      rw [getD_map_neg, getD_map_neg, habs, habs]
      exact heq
  · -- ascending axis
    rw [hres, if_neg hdesc]
    have hchain : List.Chain' (· < ·) axis := by
      rcases hmono with hasc | hd
      · exact hasc
      · cases axis with
        | nil => exact absurd rfl hne
        | cons a tl =>
          cases tl with
          | nil => exact List.chain'_singleton a
          | cons b rest =>
            exfalso
            apply hdesc
            refine ⟨by simp, ?_⟩
            have hab : a > b := (List.chain'_cons.mp hd).1
            simpa using hab
    have h0n : axis.getD 0 0 ≤ axis.getD (axis.length - 1) 0 :=
      chain'_le_getD hchain (by omega) (by omega)
    have hvle0 : axis.getD 0 0 ≤ v ∧ v ≤ axis.getD (axis.length - 1) 0 := by
      rcases hrange with h | h
      · exact h
      · exact ⟨le_trans h0n h.1, le_trans h.2 h0n⟩
    exact nearestIdxAsc_spec hchain hne hvle0.1 hvle0.2

/-- C1 witness: axis `[0, 10, 30]` with the exact midpoint target `5`:
the result index is valid, at distance no worse than index 1, and the
equidistant index 1 lies at or above it (the tie resolves low). -/
theorem nearestIdx_minimizes_witness :
    nearestIdx [0, 10, 30] 5 < ([0, 10, 30] : List ℚ).length ∧
    |([0, 10, 30] : List ℚ).getD (nearestIdx [0, 10, 30] 5) 0 - 5| ≤
      |([0, 10, 30] : List ℚ).getD 1 0 - 5| ∧
    (|([0, 10, 30] : List ℚ).getD 1 0 - 5| =
        |([0, 10, 30] : List ℚ).getD (nearestIdx [0, 10, 30] 5) 0 - 5| →
      nearestIdx [0, 10, 30] 5 ≤ 1) :=
  ⟨(nearestIdx_minimizes [0, 10, 30] 5
      (Or.inl (by norm_num [List.chain'_cons, List.chain'_singleton])) (by decide)).1,
    (nearestIdx_minimizes [0, 10, 30] 5
      (Or.inl (by norm_num [List.chain'_cons, List.chain'_singleton])) (by decide)).2.1
      1 (by decide),
    (nearestIdx_minimizes [0, 10, 30] 5
      (Or.inl (by norm_num [List.chain'_cons, List.chain'_singleton])) (by decide)).2.2
      1 (by decide)⟩

/-! ## Claim theorems: area clipping -/

theorem mem_range'_iff {s n m : Nat} : m ∈ List.range' s n ↔ s ≤ m ∧ m < s + n := by
  rw [List.mem_range']
  constructor
  · rintro ⟨i, hi, rfl⟩
    omega
  · intro ⟨h1, h2⟩
    exact ⟨m - s, by omega, by omega⟩

theorem mem_coveringRange {axis : List ℚ} (hmono : List.Chain' (· < ·) axis)
    (lo hi : ℚ) (i : Nat) :
    ((coveringRange axis lo hi).1 ≤ i ∧ i < (coveringRange axis lo hi).2) ↔
      (i < axis.length ∧ lo ≤ axis.getD i 0 ∧ axis.getD i 0 ≤ hi) := by
  simp only [coveringRange]
  constructor
  · intro ⟨h0, h1⟩
    have hk1len : axis.findIdx (fun x => decide (hi < x)) ≤ axis.length :=
      List.findIdx_le_length _
    have hilen : i < axis.length := Nat.lt_of_lt_of_le h1 hk1len
    have hk0len : axis.findIdx (fun x => decide (lo ≤ x)) < axis.length :=
      Nat.lt_of_le_of_lt h0 hilen
    have hlo : lo ≤ axis.getD (axis.findIdx (fun x => decide (lo ≤ x))) 0 := by
      rw [getD_eq_get axis hk0len 0]
      have hp := @List.findIdx_getElem ℚ (fun x => decide (lo ≤ x)) axis hk0len
      simpa using hp
    have hmo : axis.getD (axis.findIdx (fun x => decide (lo ≤ x))) 0 ≤ axis.getD i 0 :=
      chain'_le_getD hmono h0 hilen
    have hhi : ¬ hi < axis.getD i 0 := by
      rw [getD_eq_get axis hilen 0]
      have hf := List.not_of_lt_findIdx h1
      simpa using hf
    exact ⟨hilen, by linarith, not_lt.mp hhi⟩
  · intro ⟨hilen, hlo, hhi⟩
    constructor
    · by_contra hcon
      push_neg at hcon
      have hf := List.not_of_lt_findIdx hcon
      simp only [decide_eq_false_iff_not] at hf
      apply hf
      have hlo' := hlo
      rw [getD_eq_get axis hilen 0] at hlo'
      exact hlo'
    · by_contra hcon
      push_neg at hcon
      have hk1len : axis.findIdx (fun x => decide (hi < x)) < axis.length :=
        Nat.lt_of_le_of_lt hcon hilen
      have hgt : hi < axis.getD (axis.findIdx (fun x => decide (hi < x))) 0 := by
        rw [getD_eq_get axis hk1len 0]
        have hp := @List.findIdx_getElem ℚ (fun x => decide (hi < x)) axis hk1len
        simpa using hp
      have hmo : axis.getD (axis.findIdx (fun x => decide (hi < x))) 0 ≤ axis.getD i 0 :=
        chain'_le_getD hmono hcon hilen
      linarith

/-- C2: an area bbox query always succeeds, returning exactly the grid
cells whose coordinates lie inside the bbox clipped to the covered
grid; in particular a bbox entirely outside the dataset's extent
returns zero cells without raising an error. -/
theorem query_area_clips (latAxis lonAxis : List ℚ) (minLon minLat maxLon maxLat : ℚ)
    (hlat : List.Chain' (· < ·) latAxis) (hlon : List.Chain' (· < ·) lonAxis) :
    (∃ cells, query_area_cells latAxis lonAxis minLon minLat maxLon maxLat = .ok cells ∧
      ∀ la lo, ((la, lo) ∈ cells ↔
        (la ∈ latAxis ∧ minLat ≤ la ∧ la ≤ maxLat ∧
          lo ∈ lonAxis ∧ minLon ≤ lo ∧ lo ≤ maxLon))) ∧
    ((maxLat < latAxis.getD 0 0 ∨ latAxis.getD (latAxis.length - 1) 0 < minLat ∨
        maxLon < lonAxis.getD 0 0 ∨ lonAxis.getD (lonAxis.length - 1) 0 < minLon) →
      query_area_cells latAxis lonAxis minLon minLat maxLon maxLat = .ok []) := by
  have hmemlat := mem_coveringRange hlat minLat maxLat
  have hmemlon := mem_coveringRange hlon minLon maxLon
  have hcells : ∀ la lo,
      ((la, lo) ∈ (List.range' (coveringRange latAxis minLat maxLat).1
          ((coveringRange latAxis minLat maxLat).2 - (coveringRange latAxis minLat maxLat).1)).flatMap
        (fun i => (List.range' (coveringRange lonAxis minLon maxLon).1
            ((coveringRange lonAxis minLon maxLon).2 - (coveringRange lonAxis minLon maxLon).1)).map
          (fun j => (latAxis.getD i 0, lonAxis.getD j 0))) ↔
      (la ∈ latAxis ∧ minLat ≤ la ∧ la ≤ maxLat ∧
        lo ∈ lonAxis ∧ minLon ≤ lo ∧ lo ≤ maxLon)) := by
    intro la lo
    rw [List.mem_flatMap]
    constructor
    · rintro ⟨i, hi, hmem⟩
      obtain ⟨j, hj, heq⟩ := List.mem_map.mp hmem
      obtain ⟨heqla, heqlo⟩ := Prod.mk.injEq .. |>.mp heq
      rw [mem_range'_iff] at hi hj
      have hlat' := (hmemlat i).mp ⟨hi.1, by omega⟩
      have hlon' := (hmemlon j).mp ⟨hj.1, by omega⟩
      refine ⟨?_, ?_, ?_, ?_, ?_, ?_⟩
      · rw [← heqla, getD_eq_get latAxis hlat'.1 0]
        exact List.getElem_mem _
      · rw [← heqla]
        exact hlat'.2.1
      · rw [← heqla]
        exact hlat'.2.2
      · rw [← heqlo, getD_eq_get lonAxis hlon'.1 0]
        exact List.getElem_mem _
      · rw [← heqlo]
        exact hlon'.2.1
      · rw [← heqlo]
        exact hlon'.2.2
    · rintro ⟨hla, h1, h2, hlo', h3, h4⟩
      obtain ⟨i, hib, hieq⟩ := List.mem_iff_getElem.mp hla
      obtain ⟨j, hjb, hjeq⟩ := List.mem_iff_getElem.mp hlo'
      have hgi : latAxis.getD i 0 = la := by rw [getD_eq_get latAxis hib 0, hieq]
      have hgj : lonAxis.getD j 0 = lo := by rw [getD_eq_get lonAxis hjb 0, hjeq]
      have hri := (hmemlat i).mpr ⟨hib, by rw [hgi]; exact h1, by rw [hgi]; exact h2⟩
      have hrj := (hmemlon j).mpr ⟨hjb, by rw [hgj]; exact h3, by rw [hgj]; exact h4⟩
      refine ⟨i, mem_range'_iff.mpr ⟨hri.1, by omega⟩, ?_⟩
      refine List.mem_map.mpr ⟨j, mem_range'_iff.mpr ⟨hrj.1, by omega⟩, ?_⟩
      rw [hgi, hgj]
  constructor
  · refine ⟨_, rfl, hcells⟩
  · intro hout
    rw [query_area_cells]
    congr 1
    rw [List.eq_nil_iff_forall_not_mem]
    rintro ⟨la, lo⟩ hmem
    have hc := (hcells la lo).mp hmem
    rcases hout with h | h | h | h
    · obtain ⟨i, hib, hieq⟩ := List.mem_iff_getElem.mp hc.1
      have hgla : latAxis.getD i 0 = la := by
        rw [getD_eq_get latAxis hib 0]
        exact hieq
      have h0 : latAxis.getD 0 0 ≤ latAxis.getD i 0 := chain'_le_getD hlat (by omega) hib
      linarith [hc.2.2.1]
    · obtain ⟨i, hib, hieq⟩ := List.mem_iff_getElem.mp hc.1
      have hgla : latAxis.getD i 0 = la := by
        rw [getD_eq_get latAxis hib 0]
        exact hieq
      have h0 : latAxis.getD i 0 ≤ latAxis.getD (latAxis.length - 1) 0 :=
        chain'_le_getD hlat (by omega) (by omega)
      linarith [hc.2.1]
    · obtain ⟨j, hjb, hjeq⟩ := List.mem_iff_getElem.mp hc.2.2.2.1
      have hglo : lonAxis.getD j 0 = lo := by
        rw [getD_eq_get lonAxis hjb 0]
        exact hjeq
      have h0 : lonAxis.getD 0 0 ≤ lonAxis.getD j 0 := chain'_le_getD hlon (by omega) hjb
      linarith [hc.2.2.2.2.2]
    · obtain ⟨j, hjb, hjeq⟩ := List.mem_iff_getElem.mp hc.2.2.2.1
      have hglo : lonAxis.getD j 0 = lo := by
        rw [getD_eq_get lonAxis hjb 0]
        exact hjeq
      have h0 : lonAxis.getD j 0 ≤ lonAxis.getD (lonAxis.length - 1) 0 :=
        chain'_le_getD hlon (by omega) (by omega)
      linarith [hc.2.2.2.2.1]

/-- C2 witness: on the 2×2 grid with axes `[0, 10] × [0, 10]`, a bbox
entirely east of the grid returns zero cells without error, and a
partially overlapping bbox contains the overlapped cell `(10, 10)`. -/
theorem query_area_clips_witness :
    query_area_cells [0, 10] [0, 10] 20 0 30 10 = .ok [] ∧
    (∃ cells, query_area_cells [0, 10] [0, 10] 5 5 30 30 = .ok cells ∧
      ((10 : ℚ), (10 : ℚ)) ∈ cells) := by
  constructor
  · exact (query_area_clips [0, 10] [0, 10] 20 0 30 10
      (by norm_num [List.chain'_cons, List.chain'_singleton])
      (by norm_num [List.chain'_cons, List.chain'_singleton])).2
      (Or.inr (Or.inr (Or.inr (by norm_num))))
  · obtain ⟨cells, hq, hiff⟩ := (query_area_clips [0, 10] [0, 10] 5 5 30 30
      (by norm_num [List.chain'_cons, List.chain'_singleton])
      (by norm_num [List.chain'_cons, List.chain'_singleton])).1
    exact ⟨cells, hq, (hiff 10 10).mpr
      ⟨by norm_num, by norm_num, by norm_num, by norm_num, by norm_num, by norm_num⟩⟩

/-! ## Claim theorems: position queries and null mapping -/

theorem map_getD_range (l : List ℚ) :
    (List.range l.length).map (fun i => l.getD i 0) = l := by
  apply List.ext_getElem
  · simp
  · intro i h1 h2
    simp only [List.getElem_map, List.getElem_range]
    exact getD_eq_get l h2 0

theorem map_time_range (timeAxis : List ℚ) (g : Nat → SampleRecord)
    (hg : ∀ ti, (g ti).time = timeAxis.getD ti 0) :
    ((List.range timeAxis.length).map g).map (fun r => r.time) = timeAxis := by
  rw [List.map_map]
  have hfun : (fun r : SampleRecord => r.time) ∘ g = fun ti => timeAxis.getD ti 0 := funext hg
  rw [hfun, map_getD_range]

/-- C5: a position query with no datetime constraint (`All`) on an
in-range point succeeds with exactly one record per time step, whose
time values are the time axis itself, in strictly increasing order. -/
theorem query_position_all_times (latAxis lonAxis timeAxis : List ℚ)
    (fieldNames : List String) (fill : Scalar) (store : Nat → Nat → Nat → String → Scalar)
    (lon lat : ℚ) (ff : Option String)
    (htime : List.Chain' (· < ·) timeAxis)
    (hinlat : inAxisRange latAxis lat = true) (hinlon : inAxisRange lonAxis lon = true) :
    ∃ recs, query_position latAxis lonAxis timeAxis fieldNames fill store lon lat .all ff =
        .ok recs ∧
      recs.length = timeAxis.length ∧
      recs.map (fun r => r.time) = timeAxis ∧
      List.Chain' (· < ·) (recs.map (fun r => r.time)) := by
  have hq : query_position latAxis lonAxis timeAxis fieldNames fill store lon lat .all ff =
      .ok ((timeIndices timeAxis .all).map (fun ti =>
        { lat := latAxis.getD (nearestIdx latAxis lat) 0,
          lon := lonAxis.getD (nearestIdx lonAxis lon) 0,
          time := timeAxis.getD ti 0,
          fields := assembleFields
            (match ff with | some g => [g] | none => fieldNames) fill
            (store ti (nearestIdx latAxis lat) (nearestIdx lonAxis lon)) })) := by
    simp only [query_position, hinlat, hinlon]
    rfl
  refine ⟨_, hq, ?_, ?_, ?_⟩
  · simp [timeIndices]
  · rw [timeIndices]
    exact map_time_range timeAxis _ (fun ti => rfl)
  · rw [timeIndices, map_time_range timeAxis _ (fun ti => rfl)]
    exact htime

/-- C5 witness: a 1×1 grid with two time steps yields two records with
times `[1, 2]`. -/
theorem query_position_all_times_witness :
    ∃ recs, query_position [0] [0] [1, 2] ["htsgwsfc"] .nan (fun _ _ _ _ => .val 3)
        0 0 .all none = .ok recs ∧
      recs.length = ([1, 2] : List ℚ).length ∧
      recs.map (fun r => r.time) = [1, 2] ∧
      List.Chain' (· < ·) (recs.map (fun r => r.time)) :=
  query_position_all_times [0] [0] [1, 2] ["htsgwsfc"] .nan (fun _ _ _ _ => .val 3) 0 0 none
    (by norm_num [List.chain'_cons, List.chain'_singleton]) (by decide) (by decide)

/-- C6: when the stored scalar for a declared field equals the fill
value or is non-finite, the assembled record carries the field key with
an explicit null value: the key is present mapping to `none`, and every
occurrence of the key maps to `none` — never a number, never zero. -/
theorem fill_and_nonfinite_null (fieldNames : List String) (fill : Scalar)
    (read : String → Scalar) (f : String)
    (hf : f ∈ fieldNames)
    (hnull : read f = fill ∨ (read f).isFinite = false) :
    (f, (none : Option ℚ)) ∈ assembleFields fieldNames fill read ∧
    (∀ v, (f, v) ∈ assembleFields fieldNames fill read → v = none) := by
  have hdec : decodeScalar fill (read f) = none := by
    rcases hnull with h | h
    · simp [decodeScalar, h]
    · cases hr : read f with
      | val q => rw [hr] at h; simp [Scalar.isFinite] at h
      | nan => simp [decodeScalar, ite_self]
      | posInf => simp [decodeScalar, ite_self]
      | negInf => simp [decodeScalar, ite_self]
  constructor
  · exact List.mem_map.mpr ⟨f, hf, by rw [hdec]⟩
  · intro v hv
    obtain ⟨g, hg, heq⟩ := List.mem_map.mp hv
    obtain ⟨h1, h2⟩ := Prod.mk.injEq .. |>.mp heq
    subst h1
    rw [← h2, hdec]

/-- C6 witness: a stored value equal to the fill sentinel surfaces as a
present key with a null value. -/
theorem fill_and_nonfinite_null_witness :
    ("htsgwsfc", (none : Option ℚ)) ∈
      assembleFields ["htsgwsfc"] (.val 9999) (fun _ => .val 9999) :=
  (fill_and_nonfinite_null ["htsgwsfc"] (.val 9999) (fun _ => .val 9999) "htsgwsfc"
    (by simp) (Or.inl rfl)).1

/-! ## Claim theorems: geometry round trip -/

theorem normalizeLon_of_le {q : ℚ} (h : q ≤ 180) : normalizeLon q = q := by
  simp [normalizeLon, not_lt.mpr h]

theorem parseRingToks_formatRing (ring : List (ℚ × ℚ)) (hne : ring ≠ []) :
    parseRingToks (ringToks ring ++ [.rp, .rp]) = some ring := by
  induction ring with
  | nil => exact absurd rfl hne
  | cons p rest ih =>
    rcases p with ⟨x, y⟩
    cases rest with
    | nil => rfl
    | cons q rest' =>
      have hr := ih (by simp)
      cases q with
      | mk qx qy =>
        simp only [ringToks, List.cons_append, parseRingToks, List.append_eq, hr]
        rfl

/-- C7: parsing the formatted textual form of a valid point, bbox, or
polygon geometry (longitudes already in the store's `[-180,180]`
convention) yields the same geometry back. -/
theorem parse_format_roundtrip (g : Geometry) (hv : validGeometry g) :
    parseGeometry (formatGeometry g) = .ok g := by
  cases g with
  | point lon lat =>
    obtain ⟨h1, h2, h3, h4⟩ := hv
    have hlat : validLat lat = true := by simp [validLat, h3, h4]
    simp [formatGeometry, parseGeometry, hlat, normalizeLon_of_le h2]
  | bbox a b c d =>
    obtain ⟨ha1, ha2, hc1, hc2, hb1, hb2, hd1, hd2, hac, hbd⟩ := hv
    simp [formatGeometry, parseGeometry, validLat, normalizeLon_of_le ha2,
      normalizeLon_of_le hc2, hb1, hb2, hd1, hd2, hac, hbd]
  | polygon ring =>
    obtain ⟨hlen, hall⟩ := hv
    have hne : ring ≠ [] := by
      intro h
      rw [h] at hlen
      simp at hlen
    have hpr := parseRingToks_formatRing ring hne
    have hval : ring.all (fun p => validLat p.2) = true := by
      rw [List.all_eq_true]
      intro p hp
      have hb := hall p hp
      simp [validLat, hb.2.2.1, hb.2.2.2]
    have hmap : ring.map (fun p => (normalizeLon p.1, p.2)) = ring := by
      have hmc : ring.map (fun p => (normalizeLon p.1, p.2)) =
          ring.map (fun p => p) := by
        apply List.map_congr_left
        intro p hp
        have hb := hall p hp
        rw [normalizeLon_of_le hb.2.1]
      rw [hmc, List.map_id']
    simp [formatGeometry, parseGeometry, hpr, hlen, hval, hmap]

/-- C7 witness: concrete round trips for a point, a bbox, and a
rectangular polygon. -/
theorem parse_format_roundtrip_witness :
    parseGeometry (formatGeometry (.point 10 20)) = .ok (.point 10 20) ∧
    parseGeometry (formatGeometry (.bbox 0 0 10 10)) = .ok (.bbox 0 0 10 10) ∧
    parseGeometry (formatGeometry (.polygon [(0, 0), (10, 0), (10, 10), (0, 10)])) =
      .ok (.polygon [(0, 0), (10, 0), (10, 10), (0, 10)]) :=
  ⟨parse_format_roundtrip (.point 10 20) (by norm_num [validGeometry]),
    parse_format_roundtrip (.bbox 0 0 10 10) (by norm_num [validGeometry]),
    parse_format_roundtrip (.polygon [(0, 0), (10, 0), (10, 10), (0, 10)])
      (by norm_num [validGeometry])⟩

/-! ## Claim theorems: dataset discovery -/

theorem mem_insertByMtimeDesc {a d : DatasetInfo} {l : List DatasetInfo} :
    a ∈ insertByMtimeDesc d l ↔ a = d ∨ a ∈ l := by
  induction l with
  | nil => simp [insertByMtimeDesc]
  | cons x xs ih =>
    by_cases h : x.mtime > d.mtime
    · simp only [insertByMtimeDesc, if_pos h, List.mem_cons, ih]
      tauto
    · simp only [insertByMtimeDesc, if_neg h, List.mem_cons]

theorem mem_sortByMtimeDesc {a : DatasetInfo} {l : List DatasetInfo} :
    a ∈ sortByMtimeDesc l ↔ a ∈ l := by
  induction l with
  | nil => simp [sortByMtimeDesc]
  | cons x xs ih => simp [sortByMtimeDesc, mem_insertByMtimeDesc, ih]

theorem insertByMtimeDesc_ne_nil (d : DatasetInfo) (l : List DatasetInfo) :
    insertByMtimeDesc d l ≠ [] := by
  cases l with
  | nil => simp [insertByMtimeDesc]
  | cons x xs =>
    rw [insertByMtimeDesc]
    split <;> simp

theorem sortByMtimeDesc_eq_nil_iff {l : List DatasetInfo} :
    sortByMtimeDesc l = [] ↔ l = [] := by
  cases l with
  | nil => simp [sortByMtimeDesc]
  | cons x xs => simp [sortByMtimeDesc, insertByMtimeDesc_ne_nil]

theorem head?_insertByMtimeDesc (d : DatasetInfo) (l : List DatasetInfo) :
    (insertByMtimeDesc d l).head? = some d ∨ (insertByMtimeDesc d l).head? = l.head? := by
  cases l with
  | nil => left; rfl
  | cons x xs =>
    by_cases h : x.mtime > d.mtime
    · right; simp [insertByMtimeDesc, h]
    · left; simp [insertByMtimeDesc, h]

theorem chain'_insertByMtimeDesc (d : DatasetInfo) {l : List DatasetInfo}
    (h : List.Chain' (fun a b => b.mtime ≤ a.mtime) l) :
    List.Chain' (fun a b => b.mtime ≤ a.mtime) (insertByMtimeDesc d l) := by
  induction l with
  | nil => simp [insertByMtimeDesc]
  | cons x xs ih =>
    rcases List.chain'_cons'.mp h with ⟨hx, hxs⟩
    rw [insertByMtimeDesc]
    by_cases hlt : x.mtime > d.mtime
    · rw [if_pos hlt]
      refine List.chain'_cons'.mpr ⟨?_, ih hxs⟩
      intro b hb
      rcases head?_insertByMtimeDesc d xs with hh | hh
      · rw [hh] at hb
        cases hb
        exact le_of_lt hlt
      · exact hx b (hh ▸ hb)
    · rw [if_neg hlt]
      exact List.chain'_cons.mpr ⟨le_of_not_lt hlt, h⟩

theorem chain'_sortByMtimeDesc (l : List DatasetInfo) :
    List.Chain' (fun a b => b.mtime ≤ a.mtime) (sortByMtimeDesc l) := by
  induction l with
  | nil => simp [sortByMtimeDesc]
  | cons x xs ih => exact chain'_insertByMtimeDesc x ih

theorem chain'_head_max {x : DatasetInfo} {xs : List DatasetInfo}
    (h : List.Chain' (fun a b => b.mtime ≤ a.mtime) (x :: xs)) :
    ∀ a ∈ x :: xs, a.mtime ≤ x.mtime := by
  induction xs generalizing x with
  | nil =>
    intro a ha
    rw [List.mem_singleton] at ha
    exact ha ▸ le_refl _
  | cons y ys ih =>
    intro a ha
    rcases List.chain'_cons.mp h with ⟨hxy, h'⟩
    rcases List.mem_cons.mp ha with rfl | ha'
    · exact le_refl _
    · exact le_trans (ih h' a ha') hxy

theorem available_eq_nil_iff (dir : List DirEntry) :
    get_available_datasets dir = [] ↔
      ∀ e ∈ dir, ¬(e.hasSidecar = true ∧ e.sidecarLoads = true) := by
  unfold get_available_datasets
  rw [sortByMtimeDesc_eq_nil_iff, List.filterMap_eq_nil_iff]
  constructor
  · intro h e he hcon
    have := h e he
    rw [hcon.1, hcon.2] at this
    simp at this
  · intro h e he
    have hne := h e he
    have hb : (e.hasSidecar && e.sidecarLoads) = false := by
      cases hcase : (e.hasSidecar && e.sidecarLoads) with
      | false => rfl
      | true =>
        simp only [Bool.and_eq_true] at hcase
        exact absurd hcase hne
    simp [hb]

/-- C8 counterexample: (a) a `*.zarr` store whose sidecar exists but
fails to load as JSON is skipped, so `get_active_dataset` returns `None`
although a matching sidecar file is present; (b) `active_collection`
set to the empty string is falsy in Python, so even though it is set,
differs from `"latest"` and matches a discovered dataset id, the newest
dataset is returned instead of the matching one. -/
theorem get_active_dataset_counterexample :
    (get_active_dataset none [⟨"wave", true, false, none, 0⟩] = none ∧
      (⟨"wave", true, false, none, 0⟩ : DirEntry).hasSidecar = true) ∧
    ((some "" ≠ (none : Option String)) ∧ "" ≠ "latest" ∧
      (∃ d ∈ get_available_datasets
        [⟨"a", true, true, some "", 0⟩, ⟨"b", true, true, some "b", 5⟩], d.id = "") ∧
      get_active_dataset (some "")
          [⟨"a", true, true, some "", 0⟩, ⟨"b", true, true, some "b", 5⟩] =
        some ⟨"b", "b", 5⟩) := by
  refine ⟨⟨by decide, by decide⟩, by decide, by decide, ⟨⟨"", "a", 0⟩, by decide, by decide⟩, by decide⟩

/-- C8 (amended): `get_active_dataset` returns `None` exactly when no
`*.zarr` entry has a metadata sidecar that exists and loads as JSON;
when `active_collection` is a non-empty string other than `"latest"`
matching some discovered dataset id, a dataset with that id is
returned; in every other case (unset, empty, `"latest"`, or no id
match) a discovered dataset with the greatest modification time is
returned. -/
theorem get_active_dataset_spec (cfg : Option String) (dir : List DirEntry) :
    (get_active_dataset cfg dir = none ↔
      ∀ e ∈ dir, ¬(e.hasSidecar = true ∧ e.sidecarLoads = true)) ∧
    (∀ c, cfg = some c → c ≠ "" → c ≠ "latest" →
      (∃ d ∈ get_available_datasets dir, d.id = c) →
      ∃ d, get_active_dataset cfg dir = some d ∧ d.id = c) ∧
    ((cfg = none ∨ cfg = some "" ∨ cfg = some "latest" ∨
        (∃ c, cfg = some c ∧ ∀ d ∈ get_available_datasets dir, d.id ≠ c)) →
      (∃ e ∈ dir, e.hasSidecar = true ∧ e.sidecarLoads = true) →
      ∃ d, get_active_dataset cfg dir = some d ∧
        d ∈ get_available_datasets dir ∧
        ∀ d' ∈ get_available_datasets dir, d'.mtime ≤ d.mtime) := by
  refine ⟨?_, ?_, ?_⟩
  · -- `None` iff discovery is empty iff no loadable sidecar
    rw [← available_eq_nil_iff]
    simp only [get_active_dataset]
    by_cases hemp : (get_available_datasets dir).isEmpty = true
    · simp [hemp, List.isEmpty_iff.mp hemp]
    · have hne : get_available_datasets dir ≠ [] := by
        simpa [List.isEmpty_iff] using hemp
      rw [if_neg hemp]
      refine iff_of_false ?_ hne
      split
      · simp
      · simp [List.head?_eq_none_iff, hne]
  · intro c hc hcne hcnl ⟨d, hd, hid⟩
    subst hc
    have hDne : get_available_datasets dir ≠ [] := List.ne_nil_of_mem hd
    have hfind : ((get_available_datasets dir).find? (fun d => d.id = c)).isSome :=
      List.find?_isSome.mpr ⟨d, hd, by simp [hid]⟩
    obtain ⟨d', hd'⟩ := Option.isSome_iff_exists.mp hfind
    have hid' : d'.id = c := by simpa using List.find?_some hd'
    refine ⟨d', ?_, hid'⟩
    unfold get_active_dataset
    simp [hDne, hcne, hcnl, hd', List.isEmpty_iff]
  · intro hother ⟨e, he, hs, hl⟩
    have hmem0 : (⟨e.metaId.getD e.stem, e.stem, e.mtime⟩ : DatasetInfo) ∈
        get_available_datasets dir := by
      unfold get_available_datasets
      rw [mem_sortByMtimeDesc]
      exact List.mem_filterMap.mpr ⟨e, he, by simp [hs, hl]⟩
    have hDne : get_available_datasets dir ≠ [] := List.ne_nil_of_mem hmem0
    obtain ⟨d0, rest, hcons⟩ := List.exists_cons_of_ne_nil hDne
    have hch : List.Chain' (fun a b => b.mtime ≤ a.mtime) (get_available_datasets dir) := by
      unfold get_available_datasets
      exact chain'_sortByMtimeDesc _
    have hmax : ∀ a ∈ get_available_datasets dir, a.mtime ≤ d0.mtime := by
      rw [hcons] at hch ⊢
      exact chain'_head_max hch
    have hhead : (get_available_datasets dir).head? = some d0 := by
      rw [hcons]
      rfl
    refine ⟨d0, ?_, by rw [hcons]; exact List.mem_cons_self d0 rest, hmax⟩
    rcases hother with rfl | rfl | rfl | ⟨c, rfl, hnomatch⟩
    · unfold get_active_dataset
      simp [hDne, hhead, List.isEmpty_iff]
    · unfold get_active_dataset
      simp [hDne, hhead, List.isEmpty_iff]
    · unfold get_active_dataset
      simp [hDne, hhead, List.isEmpty_iff]
    · have hfn : (get_available_datasets dir).find? (fun d => d.id = c) = none :=
        List.find?_eq_none.mpr (fun x hx => by simp [hnomatch x hx])
      unfold get_active_dataset
      simp [hDne, hhead, hfn, List.isEmpty_iff]

/-- C8 witness: the amended statement applied to a concrete directory,
with the configured-id, latest and empty cases all discharged. -/
theorem get_active_dataset_spec_witness :
    (∃ d, get_active_dataset (some "old")
        [⟨"old", true, true, some "old", 0⟩, ⟨"new", true, true, some "new", 7⟩] = some d ∧
      d.id = "old") ∧
    (∃ d, get_active_dataset none
        [⟨"old", true, true, some "old", 0⟩, ⟨"new", true, true, some "new", 7⟩] = some d ∧
      d ∈ get_available_datasets
        [⟨"old", true, true, some "old", 0⟩, ⟨"new", true, true, some "new", 7⟩] ∧
      ∀ d' ∈ get_available_datasets
        [⟨"old", true, true, some "old", 0⟩, ⟨"new", true, true, some "new", 7⟩],
        d'.mtime ≤ d.mtime) ∧
    get_active_dataset none [] = none :=
  ⟨(get_active_dataset_spec (some "old")
      [⟨"old", true, true, some "old", 0⟩, ⟨"new", true, true, some "new", 7⟩]).2.1
      "old" rfl (by decide) (by decide) ⟨⟨"old", "old", 0⟩, by decide, rfl⟩,
    (get_active_dataset_spec none
      [⟨"old", true, true, some "old", 0⟩, ⟨"new", true, true, some "new", 7⟩]).2.2
      (Or.inl rfl) ⟨⟨"old", true, true, some "old", 0⟩, by decide, rfl, rfl⟩,
    (get_active_dataset_spec none []).1.mpr (by simp)⟩

/-! ## Claim theorems: Zarr pipeline -/

/-- C10: `optimize_for_zarr` always yields a monotonically
non-decreasing time axis; and when the input longitude axis contains a
value above 180, every output longitude lies in `[-180, 180)` and the
longitude axis is sorted ascending. -/
theorem optimize_for_zarr_axes (ds : WaveDataset) :
    List.Chain' (· ≤ ·) (optimize_for_zarr ds).time ∧
    ((∃ x ∈ ds.lon, (180 : ℚ) < x) →
      (∀ y ∈ (optimize_for_zarr ds).lon, -180 ≤ y ∧ y < 180) ∧
      List.Chain' (· ≤ ·) (optimize_for_zarr ds).lon) := by
  constructor
  · rw [optimize_for_zarr, wrapLonStep_time]
    exact sortTimeStep_time_chain ds
  · intro hex
    have hlon1 : (sortTimeStep ds).lon = ds.lon := sortTimeStep_lon ds
    obtain ⟨m, hm, h180⟩ := exists_max?_gt hex
    have hlon2 : (optimize_for_zarr ds).lon =
        sortAsc (ds.lon.map (fun x => pyMod (x + 180) 360 - 180)) := by
      rw [optimize_for_zarr, wrapLonStep_lon_of_gt (hlon1 ▸ hm) h180, hlon1]
    constructor
    · intro y hy
      rw [hlon2, mem_sortAsc] at hy
      obtain ⟨x, _, hxy⟩ := List.mem_map.mp hy
      have hrange := pyMod_nonneg_lt (x + 180)
      constructor
      · rw [← hxy]
        linarith [hrange.1]
      · rw [← hxy]
        linarith [hrange.2]
    · rw [hlon2]
      exact chain'_le_sortAsc _

/-- C10 witness: a concrete dataset with unsorted time and a longitude
above 180. -/
theorem optimize_for_zarr_axes_witness :
    List.Chain' (· ≤ ·) (optimize_for_zarr ⟨[2, 1], [0], [190, 10]⟩).time ∧
    ((∀ y ∈ (optimize_for_zarr ⟨[2, 1], [0], [190, 10]⟩).lon, -180 ≤ y ∧ y < 180) ∧
      List.Chain' (· ≤ ·) (optimize_for_zarr ⟨[2, 1], [0], [190, 10]⟩).lon) :=
  ⟨(optimize_for_zarr_axes ⟨[2, 1], [0], [190, 10]⟩).1,
    (optimize_for_zarr_axes ⟨[2, 1], [0], [190, 10]⟩).2
      ⟨190, by norm_num, by norm_num⟩⟩

end EdrSpec
